import Mathlib

/-!
Shallow embedding of the 3MF → STL mesh codec of `src/app.py` (namespace `App`)
and `src/build.py` (namespace `Build`), together with proofs about the claims
of the specification.

Modelling conventions:
* XML documents are modelled by the `XModel` tree below, holding exactly the
  parts the two `_parse_model_xml` functions traverse (objects with optional
  mesh / components children, and the build items).  Attribute values are
  modelled as already-converted scalars (`Option α`); an absent attribute is
  `none`.
* Python `dict`s are association lists with `dict`-faithful insertion
  (`dictInsert` replaces an existing key in place, otherwise appends).
* The unguarded recursion of `collect` is modelled with explicit fuel:
  `none` means the fuel bound was hit, so genuine termination of the source
  recursion is `∃ fuel, collect … = some _`.
* Geometry scalars are a type `α` with the arithmetic used by the source;
  `math.sqrt` is passed as a function argument and instantiated with
  `Real.sqrt` where the numeric claims need it.
* `struct.pack` float serialization is an abstract 4-byte encoding `enc`.
* Python list indexing is modelled total (`idx0`, default 0); the source
  raises `IndexError` out of range, a region excluded by hypotheses.
-/

/-- Dictionary insertion with Python `dict` assignment semantics: an existing
key keeps its position and gets the new value, a new key is appended. -/
def dictInsert {κ β : Type} [DecidableEq κ] (k : κ) (v : β) :
    List (κ × β) → List (κ × β)
  | [] => [(k, v)]
  | (k', v') :: rest =>
    if k' = k then (k, v) :: rest else (k', v') :: dictInsert k v rest

/-- Dictionary lookup, `d[k]` / `k in d`. -/
def dictLookup {κ β : Type} [DecidableEq κ] (k : κ) : List (κ × β) → Option β
  | [] => none
  | (k', v) :: rest => if k' = k then some v else dictLookup k rest

/-- Python `str.endswith`, computed on the character lists of the strings. -/
def strEndsWith (s suf : String) : Bool := suf.data.isSuffixOf s.data

/-- Python `str.startswith`, computed on the character lists of the strings. -/
def strStartsWith (s p : String) : Bool := p.data.isPrefixOf s.data

/-- `struct.pack('<H', n)`: two little-endian bytes. -/
def packU16le (n : Nat) : List Nat := [n % 256, n / 256 % 256]

/-- `struct.pack('<I', n)`: four little-endian bytes. -/
def packU32le (n : Nat) : List Nat :=
  [n % 256, n / 256 % 256, n / 256 ^ 2 % 256, n / 256 ^ 3 % 256]

/-- Little-endian value of a byte list (reads back a packed integer). -/
def leNat : List Nat → Nat
  | [] => 0
  | b :: rest => b + 256 * leNat rest

/-- Python list indexing, made total with default `0`; the source raises
`IndexError` out of range, a case the theorems exclude by hypothesis. -/
def idx0 {α : Type} [Zero α] (l : List α) (i : Nat) : α := l.getD i 0

/-- A `<vertex>`-position child of the `<vertices>` element: optional
`x`, `y`, `z` attributes. -/
structure XVertex (α : Type) where
  x : Option α
  y : Option α
  z : Option α

/-- A child of the `<triangles>` element: optional `v1`, `v2`, `v3`
vertex-reference attributes. -/
structure XTriangle where
  v1 : Option Nat
  v2 : Option Nat
  v3 : Option Nat

/-- A `<component>` child: `objectid` attribute and optional production
`path` attribute. -/
structure XComponent where
  objectid : String
  path : Option String

/-- A `<mesh>` child of an object: optional `<vertices>` and `<triangles>`
child elements, each with its list of children. -/
structure XMesh (α : Type) where
  vertices : Option (List (XVertex α))
  triangles : Option (List XTriangle)

/-- An `<object>` element: its `id`, an optional `<mesh>` child and an
optional `<components>` child. -/
structure XObject (α : Type) where
  id : String
  mesh : Option (XMesh α)
  components : Option (List XComponent)

/-- One model document: the `<object>` elements in document order and the
`objectid`s of the `<build>/<item>` elements. -/
structure XModel (α : Type) where
  objects : List (XObject α)
  buildItems : List String

/-- The archive input of a conversion: either not a valid zip (in Python,
`zipfile.ZipFile` raises `BadZipFile`), or the member list in archive order,
each member already parsed into its `XModel` tree. -/
inductive ZipInput (α : Type) where
  | badZip
  | zip (members : List (String × XModel α))

/-- The typed hard failure surfaced by the conversion. -/
inductive ArchiveError where
  | badZip
deriving DecidableEq

/-- The result triple of `_parse_model_xml`. -/
structure ParsedDoc (α : Type) where
  meshes : List (String × (List α × List Nat))
  components_map : List (String × List (String × String))
  build_items : List String
deriving DecidableEq

/-- The flattening accumulator: `all_verts`, `all_tris` and `vert_offset`
of `convert_3mf_to_stl`. -/
structure MeshAcc (α : Type) where
  all_verts : List α
  all_tris : List Nat
  vert_offset : Nat
deriving DecidableEq

namespace App

variable {α : Type}

/-- The flat vertex list built by the `for v in vertices_el` loop of
`_parse_model_xml` (src/app.py lines 43–46): `x`, `y`, `z` in order, a
missing attribute defaulting to `0`. -/
def parseVerts [Zero α] : List (XVertex α) → List α
  | [] => []
  | v :: rest => v.x.getD 0 :: v.y.getD 0 :: v.z.getD 0 :: parseVerts rest

/-- The flat triangle-index list built by the `for t in triangles_el` loop
(src/app.py lines 48–51): `v1`, `v2`, `v3` in order, defaulting to `0`. -/
def parseTris : List XTriangle → List Nat
  | [] => []
  | t :: rest => t.v1.getD 0 :: t.v2.getD 0 :: t.v3.getD 0 :: parseTris rest

/-- Body of the first object loop of `_parse_model_xml` (src/app.py lines
33–53): an object with a mesh child holding both a vertices and a triangles
element registers its flat lists under the object id, skipped when either
list is empty (`if verts and tris`). -/
def meshStep [Zero α] (m : List (String × (List α × List Nat)))
    (obj : XObject α) : List (String × (List α × List Nat)) :=
  match obj.mesh with
  | none => m
  | some mesh =>
    match mesh.vertices, mesh.triangles with
    | some vl, some tl =>
      let verts := parseVerts vl
      let tris := parseTris tl
      if verts.isEmpty || tris.isEmpty then m
      else dictInsert obj.id (verts, tris) m
    | _, _ => m

/-- First object loop of `_parse_model_xml` (src/app.py lines 33–53). -/
def meshesOf [Zero α] (objs : List (XObject α)) :
    List (String × (List α × List Nat)) :=
  objs.foldl meshStep []

/-- Second object loop of `_parse_model_xml` (src/app.py lines 54–66):
component references `(objectid, path)`, the path attribute defaulting to
`""`, registered only when the component list is non-empty. -/
def componentsOf (objs : List (XObject α)) :
    List (String × List (String × String)) :=
  objs.foldl (fun m obj =>
    match obj.components with
    | none => m
    | some cl =>
      let comp_list := cl.map (fun c => (c.objectid, c.path.getD ""))
      if comp_list.isEmpty then m else dictInsert obj.id comp_list m) []

/-- `_parse_model_xml` (src/app.py lines 30–70). -/
def parse_model_xml [Zero α] (xm : XModel α) : ParsedDoc α :=
  ⟨meshesOf xm.objects, componentsOf xm.objects, xm.buildItems⟩

/-- Key normalization of the archive-member loop (src/app.py line 88). -/
def normKey (name : String) : String :=
  if strStartsWith name "/" then name else "/" ++ name

/-- The `for name in z.namelist()` loop (src/app.py lines 85–90): members
ending in `.model` are parsed and stored under their normalized key. -/
def loadModelData [Zero α] (members : List (String × XModel α)) :
    List (String × ParsedDoc α) :=
  members.foldl (fun md nm =>
    if strEndsWith nm.1 ".model" then
      dictInsert (normKey nm.1) (parse_model_xml nm.2) md
    else md) []

/-- Index remapping of `add_mesh` (src/app.py lines 95–98): the triangle
indices are taken three at a time and each is increased by the current
vertex offset. -/
def remapTris (off : Nat) : List Nat → List Nat
  | a :: b :: c :: rest => (a + off) :: (b + off) :: (c + off) :: remapTris off rest
  | _ => []

/-- `add_mesh` (src/app.py lines 92–99). -/
def add_mesh (acc : MeshAcc α) (verts : List α) (tris : List Nat) : MeshAcc α :=
  { all_verts := acc.all_verts ++ verts
    all_tris := acc.all_tris ++ remapTris acc.vert_offset tris
    vert_offset := acc.vert_offset + verts.length / 3 }

/-- Reference-path resolution inside `collect` (src/app.py lines 109–111):
an empty component path means the current document, and the result is
normalized to the leading-separator form. -/
def resolveRef (comp_path model_path : String) : String :=
  let ref := if comp_path = "" then model_path else comp_path
  if strStartsWith ref "/" then ref else "/" ++ ref

/-- The `for comp_oid, comp_path in comps_map[oid]` loop of `collect`
(src/app.py lines 108–112), with the recursive call passed as `f`. -/
def collectComps (f : String → String → MeshAcc α → Option (MeshAcc α))
    (model_path : String) : List (String × String) → MeshAcc α → Option (MeshAcc α)
  | [], acc => some acc
  | (comp_oid, comp_path) :: rest, acc =>
    match f comp_oid (resolveRef comp_path model_path) acc with
    | none => none
    | some acc2 => collectComps f model_path rest acc2

/-- `collect` (src/app.py lines 101–112), with explicit recursion fuel:
`none` means the fuel ran out before the source recursion returned. -/
def collect (md : List (String × ParsedDoc α)) :
    Nat → String → String → MeshAcc α → Option (MeshAcc α)
  | 0, _, _, _ => none
  | fuel + 1, oid, model_path, acc =>
    match dictLookup model_path md with
    | none => some acc
    | some doc =>
      let acc1 :=
        match dictLookup oid doc.meshes with
        | some vt => add_mesh acc vt.1 vt.2
        | none => acc
      match dictLookup oid doc.components_map with
      | none => some acc1
      | some comps =>
        collectComps (fun o p a => collect md fuel o p a) model_path comps acc1

/-- The conventional root-document key (src/app.py line 114). -/
def main_key : String := "/3D/3dmodel.model"

/-- The `for item_oid in build_items` loop (src/app.py lines 118–119). -/
def collectItems (md : List (String × ParsedDoc α)) (fuel : Nat) :
    List String → MeshAcc α → Option (MeshAcc α)
  | [], acc => some acc
  | oid :: rest, acc =>
    match collect md fuel oid main_key acc with
    | none => none
    | some acc2 => collectItems md fuel rest acc2

/-- The fallback loops (src/app.py lines 121–123 and 125–127): every mesh of
every parsed document is appended in document order. -/
def flattenAll (md : List (String × ParsedDoc α)) (acc : MeshAcc α) : MeshAcc α :=
  md.foldl (fun a kv =>
    kv.2.meshes.foldl (fun a2 ov => add_mesh a2 ov.2.1 ov.2.2) a) acc

/-- Root selection and resolution (src/app.py lines 114–127), starting from
the empty accumulator. -/
def runResolve (md : List (String × ParsedDoc α)) (fuel : Nat) :
    Option (MeshAcc α) :=
  match dictLookup main_key md with
  | some doc =>
    if doc.build_items.isEmpty then some (flattenAll md ⟨[], [], 0⟩)
    else collectItems md fuel doc.build_items ⟨[], [], 0⟩
  | none => some (flattenAll md ⟨[], [], 0⟩)

variable [Zero α] [Add α] [Sub α] [Mul α] [Div α] [LT α]
variable [DecidableRel ((· < ·) : α → α → Prop)]

/-- The per-triangle normal computation (src/app.py lines 147–154): cross
product of the two edges, divided by its `sqrt`-computed magnitude only
when that magnitude is positive. -/
def stlNormal (sqrt : α → α) (a b c : α × α × α) : α × α × α :=
  let ux := b.1 - a.1
  let uy := b.2.1 - a.2.1
  let uz := b.2.2 - a.2.2
  let vx := c.1 - a.1
  let vy := c.2.1 - a.2.1
  let vz := c.2.2 - a.2.2
  let nx := uy * vz - uz * vy
  let ny := uz * vx - ux * vz
  let nz := ux * vy - uy * vx
  let ln := sqrt (nx * nx + ny * ny + nz * nz)
  if 0 < ln then (nx / ln, ny / ln, nz / ln) else (nx, ny, nz)

/-- Vertex fetch of the encoding loop (src/app.py lines 144–146):
`a = t[j] * 3` and the three coordinates at `a`, `a+1`, `a+2`. -/
def triVertex (v : List α) (t : List Nat) (j : Nat) : α × α × α :=
  let a := idx0 t j * 3
  (idx0 v a, idx0 v (a + 1), idx0 v (a + 2))

/-- One 50-byte triangle record (src/app.py line 155): `'<12fH'` with the
normal, the three vertices and the constant `0` attribute, each float
serialized by the 4-byte encoding `enc`. -/
def triRecord (sqrt : α → α) (enc : α → List Nat) (v : List α)
    (t : List Nat) (i : Nat) : List Nat :=
  let va := triVertex v t (3 * i)
  let vb := triVertex v t (3 * i + 1)
  let vc := triVertex v t (3 * i + 2)
  let n := stlNormal sqrt va vb vc
  enc n.1 ++ enc n.2.1 ++ enc n.2.2 ++
  enc va.1 ++ enc va.2.1 ++ enc va.2.2 ++
  enc vb.1 ++ enc vb.2.1 ++ enc vb.2.2 ++
  enc vc.1 ++ enc vc.2.1 ++ enc vc.2.2 ++ packU16le 0

/-- STL serialization (src/app.py lines 129–156): `None` on zero triangles,
otherwise the 80-byte zero header, the packed triangle count and the
triangle records in order. -/
def encode_stl (sqrt : α → α) (enc : α → List Nat)
    (all_verts : List α) (all_tris : List Nat) : Option (List Nat) :=
  let num_tris := all_tris.length / 3
  if num_tris = 0 then none
  else
    some (List.replicate 80 0 ++ packU32le num_tris ++
      ((List.range num_tris).map (triRecord sqrt enc all_verts all_tris)).flatten)

/-- The conversion pipeline of `convert_3mf_to_stl` (src/app.py lines
79–158) with the caching layer removed: archive reading, resolution and
serialization.  The outer `none` means the `collect` recursion did not
return within the given fuel. -/
def convertPipeline (sqrt : α → α) (enc : α → List Nat) (fuel : Nat) :
    ZipInput α → Option (Except ArchiveError (Option (List Nat)))
  | ZipInput.badZip => some (Except.error ArchiveError.badZip)
  | ZipInput.zip members =>
    match runResolve (loadModelData members) fuel with
    | none => none
    | some acc => some (Except.ok (encode_stl sqrt enc acc.all_verts acc.all_tris))

/-- `convert_3mf_to_stl` (src/app.py lines 73–161) with its cache: the key
models the f-string `f"{filepath}:{mtime}"` as the (path, mtime) pair — the
timestamp type `τ` only needs equality, mirroring the key comparison — a
hit returns the stored bytes without touching the archive, and only
successful byte results are stored back. -/
def convert_cached {τ : Type} [DecidableEq τ] (sqrt : α → α)
    (enc : α → List Nat) (fuel : Nat)
    (filepath : String) (mtime : τ) (archive : ZipInput α)
    (cache : List ((String × τ) × List Nat)) :
    Option (Except ArchiveError (Option (List Nat)) × List ((String × τ) × List Nat)) :=
  match dictLookup (filepath, mtime) cache with
  | some stl => some (Except.ok (some stl), cache)
  | none =>
    match convertPipeline sqrt enc fuel archive with
    | none => none
    | some (Except.error e) => some (Except.error e, cache)
    | some (Except.ok none) => some (Except.ok none, cache)
    | some (Except.ok (some stl)) =>
      some (Except.ok (some stl), dictInsert (filepath, mtime) stl cache)

end App

namespace Build

variable {α : Type}

/-- The flat vertex list built by the `for v in vertices_el` loop of
`_parse_model_xml` (src/build.py lines 34–37). -/
def parseVerts [Zero α] : List (XVertex α) → List α
  | [] => []
  | v :: rest => v.x.getD 0 :: v.y.getD 0 :: v.z.getD 0 :: parseVerts rest

/-- The flat triangle-index list built by the `for t in triangles_el` loop
(src/build.py lines 39–42). -/
def parseTris : List XTriangle → List Nat
  | [] => []
  | t :: rest => t.v1.getD 0 :: t.v2.getD 0 :: t.v3.getD 0 :: parseTris rest

/-- Body of the first object loop of `_parse_model_xml` (src/build.py lines
24–44). -/
def meshStep [Zero α] (m : List (String × (List α × List Nat)))
    (obj : XObject α) : List (String × (List α × List Nat)) :=
  match obj.mesh with
  | none => m
  | some mesh =>
    match mesh.vertices, mesh.triangles with
    | some vl, some tl =>
      let verts := parseVerts vl
      let tris := parseTris tl
      if verts.isEmpty || tris.isEmpty then m
      else dictInsert obj.id (verts, tris) m
    | _, _ => m

/-- First object loop of `_parse_model_xml` (src/build.py lines 24–44). -/
def meshesOf [Zero α] (objs : List (XObject α)) :
    List (String × (List α × List Nat)) :=
  objs.foldl meshStep []

/-- Second object loop of `_parse_model_xml` (src/build.py lines 45–57). -/
def componentsOf (objs : List (XObject α)) :
    List (String × List (String × String)) :=
  objs.foldl (fun m obj =>
    match obj.components with
    | none => m
    | some cl =>
      let comp_list := cl.map (fun c => (c.objectid, c.path.getD ""))
      if comp_list.isEmpty then m else dictInsert obj.id comp_list m) []

/-- `_parse_model_xml` (src/build.py lines 21–61). -/
def parse_model_xml [Zero α] (xm : XModel α) : ParsedDoc α :=
  ⟨meshesOf xm.objects, componentsOf xm.objects, xm.buildItems⟩

/-- Key normalization of the archive-member loop (src/build.py line 74). -/
def normKey (name : String) : String :=
  if strStartsWith name "/" then name else "/" ++ name

/-- The `for name in z.namelist()` loop (src/build.py lines 71–76). -/
def loadModelData [Zero α] (members : List (String × XModel α)) :
    List (String × ParsedDoc α) :=
  members.foldl (fun md nm =>
    if strEndsWith nm.1 ".model" then
      dictInsert (normKey nm.1) (parse_model_xml nm.2) md
    else md) []

/-- Index remapping of `add_mesh` (src/build.py lines 81–84). -/
def remapTris (off : Nat) : List Nat → List Nat
  | a :: b :: c :: rest => (a + off) :: (b + off) :: (c + off) :: remapTris off rest
  | _ => []

/-- `add_mesh` (src/build.py lines 78–85). -/
def add_mesh (acc : MeshAcc α) (verts : List α) (tris : List Nat) : MeshAcc α :=
  { all_verts := acc.all_verts ++ verts
    all_tris := acc.all_tris ++ remapTris acc.vert_offset tris
    vert_offset := acc.vert_offset + verts.length / 3 }

/-- Reference-path resolution inside `collect` (src/build.py lines 95–97). -/
def resolveRef (comp_path model_path : String) : String :=
  let ref := if comp_path = "" then model_path else comp_path
  if strStartsWith ref "/" then ref else "/" ++ ref

/-- The component loop of `collect` (src/build.py lines 94–98). -/
def collectComps (f : String → String → MeshAcc α → Option (MeshAcc α))
    (model_path : String) : List (String × String) → MeshAcc α → Option (MeshAcc α)
  | [], acc => some acc
  | (comp_oid, comp_path) :: rest, acc =>
    match f comp_oid (resolveRef comp_path model_path) acc with
    | none => none
    | some acc2 => collectComps f model_path rest acc2

/-- `collect` (src/build.py lines 87–98), with explicit recursion fuel. -/
def collect (md : List (String × ParsedDoc α)) :
    Nat → String → String → MeshAcc α → Option (MeshAcc α)
  | 0, _, _, _ => none
  | fuel + 1, oid, model_path, acc =>
    match dictLookup model_path md with
    | none => some acc
    | some doc =>
      let acc1 :=
        match dictLookup oid doc.meshes with
        | some vt => add_mesh acc vt.1 vt.2
        | none => acc
      match dictLookup oid doc.components_map with
      | none => some acc1
      | some comps =>
        collectComps (fun o p a => collect md fuel o p a) model_path comps acc1

/-- The conventional root-document key (src/build.py line 100). -/
def main_key : String := "/3D/3dmodel.model"

/-- The `for item_oid in build_items` loop (src/build.py lines 104–105). -/
def collectItems (md : List (String × ParsedDoc α)) (fuel : Nat) :
    List String → MeshAcc α → Option (MeshAcc α)
  | [], acc => some acc
  | oid :: rest, acc =>
    match collect md fuel oid main_key acc with
    | none => none
    | some acc2 => collectItems md fuel rest acc2

/-- The fallback loops (src/build.py lines 107–109 and 111–113). -/
def flattenAll (md : List (String × ParsedDoc α)) (acc : MeshAcc α) : MeshAcc α :=
  md.foldl (fun a kv =>
    kv.2.meshes.foldl (fun a2 ov => add_mesh a2 ov.2.1 ov.2.2) a) acc

/-- Root selection and resolution (src/build.py lines 100–113). -/
def runResolve (md : List (String × ParsedDoc α)) (fuel : Nat) :
    Option (MeshAcc α) :=
  match dictLookup main_key md with
  | some doc =>
    if doc.build_items.isEmpty then some (flattenAll md ⟨[], [], 0⟩)
    else collectItems md fuel doc.build_items ⟨[], [], 0⟩
  | none => some (flattenAll md ⟨[], [], 0⟩)

variable [Zero α] [Add α] [Sub α] [Mul α] [Div α] [LT α]
variable [DecidableRel ((· < ·) : α → α → Prop)]

/-- The per-triangle normal computation (src/build.py lines 133–140). -/
def stlNormal (sqrt : α → α) (a b c : α × α × α) : α × α × α :=
  let ux := b.1 - a.1
  let uy := b.2.1 - a.2.1
  let uz := b.2.2 - a.2.2
  let vx := c.1 - a.1
  let vy := c.2.1 - a.2.1
  let vz := c.2.2 - a.2.2
  let nx := uy * vz - uz * vy
  let ny := uz * vx - ux * vz
  let nz := ux * vy - uy * vx
  let ln := sqrt (nx * nx + ny * ny + nz * nz)
  if 0 < ln then (nx / ln, ny / ln, nz / ln) else (nx, ny, nz)

/-- Vertex fetch of the encoding loop (src/build.py lines 130–132). -/
def triVertex (v : List α) (t : List Nat) (j : Nat) : α × α × α :=
  let a := idx0 t j * 3
  (idx0 v a, idx0 v (a + 1), idx0 v (a + 2))

/-- One 50-byte triangle record (src/build.py line 141). -/
def triRecord (sqrt : α → α) (enc : α → List Nat) (v : List α)
    (t : List Nat) (i : Nat) : List Nat :=
  let va := triVertex v t (3 * i)
  let vb := triVertex v t (3 * i + 1)
  let vc := triVertex v t (3 * i + 2)
  let n := stlNormal sqrt va vb vc
  enc n.1 ++ enc n.2.1 ++ enc n.2.2 ++
  enc va.1 ++ enc va.2.1 ++ enc va.2.2 ++
  enc vb.1 ++ enc vb.2.1 ++ enc vb.2.2 ++
  enc vc.1 ++ enc vc.2.1 ++ enc vc.2.2 ++ packU16le 0

/-- STL serialization (src/build.py lines 115–142). -/
def encode_stl (sqrt : α → α) (enc : α → List Nat)
    (all_verts : List α) (all_tris : List Nat) : Option (List Nat) :=
  let num_tris := all_tris.length / 3
  if num_tris = 0 then none
  else
    some (List.replicate 80 0 ++ packU32le num_tris ++
      ((List.range num_tris).map (triRecord sqrt enc all_verts all_tris)).flatten)

/-- `convert_3mf_to_stl` (src/build.py lines 64–144): the uncached
conversion. -/
def convert_3mf_to_stl (sqrt : α → α) (enc : α → List Nat) (fuel : Nat) :
    ZipInput α → Option (Except ArchiveError (Option (List Nat)))
  | ZipInput.badZip => some (Except.error ArchiveError.badZip)
  | ZipInput.zip members =>
    match runResolve (loadModelData members) fuel with
    | none => none
    | some acc => some (Except.ok (encode_stl sqrt enc acc.all_verts acc.all_tris))

end Build

/-! Helper lemmas about the dictionary model. -/

theorem dictLookup_insert_self {κ β : Type} [DecidableEq κ] (k : κ) (v : β) :
    ∀ d : List (κ × β), dictLookup k (dictInsert k v d) = some v
  | [] => by simp [dictInsert, dictLookup]
  | (k', v') :: rest => by
    by_cases h : k' = k
    · simp [dictInsert, dictLookup, h]
    · simp only [dictInsert, if_neg h, dictLookup]
      exact dictLookup_insert_self k v rest

theorem dictLookup_insert_ne {κ β : Type} [DecidableEq κ] {k k2 : κ} (v : β)
    (hne : k2 ≠ k) :
    ∀ d : List (κ × β), dictLookup k2 (dictInsert k v d) = dictLookup k2 d
  | [] => by
    simp only [dictInsert, dictLookup]
    rw [if_neg (fun h => hne h.symm)]
  | (k', v') :: rest => by
    by_cases h : k' = k
    · subst h
      simp only [dictInsert, if_pos rfl, dictLookup]
      rw [if_neg (fun h => hne h.symm), if_neg (fun h => hne h.symm)]
    · simp only [dictInsert, if_neg h, dictLookup]
      by_cases h2 : k' = k2
      · simp [h2]
      · rw [if_neg h2, if_neg h2]
        exact dictLookup_insert_ne v hne rest

/-! Helper lemmas about index remapping. -/

theorem remapTris_mem (off : Nat) :
    ∀ (t : List Nat) (x : Nat), x ∈ App.remapTris off t → ∃ y ∈ t, x = y + off
  | [], x, h => absurd h (by rw [show App.remapTris off [] = [] from rfl]; simp)
  | [a], x, h => absurd h (by rw [show App.remapTris off [a] = [] from rfl]; simp)
  | [a, b], x, h =>
    absurd h (by rw [show App.remapTris off [a, b] = [] from rfl]; simp)
  | a :: b :: c :: rest, x, h => by
    rw [show App.remapTris off (a :: b :: c :: rest)
        = (a + off) :: (b + off) :: (c + off) :: App.remapTris off rest from rfl] at h
    simp only [List.mem_cons] at h
    rcases h with h | h | h | h
    · exact ⟨a, by simp, h⟩
    · exact ⟨b, by simp, h⟩
    · exact ⟨c, by simp, h⟩
    · obtain ⟨y, hy, hx⟩ := remapTris_mem off rest x h
      exact ⟨y, by simp [hy], hx⟩

/-- C4: when a mesh is appended by `add_mesh`, the new triangle indices are
exactly the old ones shifted by the previously accumulated vertex count
`vert_offset`; if the mesh's local indices are below its own vertex count
and the accumulator was in range, the whole buffer stays in range and the
new indices lie in `[vert_offset, vert_offset + V)`. -/
theorem c4_index_remapping {α : Type} (acc : MeshAcc α) (verts : List α)
    (tris : List Nat)
    (hmesh : ∀ x ∈ tris, x < verts.length / 3)
    (hacc : ∀ x ∈ acc.all_tris, x < acc.vert_offset) :
    (App.add_mesh acc verts tris).all_tris
        = acc.all_tris ++ App.remapTris acc.vert_offset tris
    ∧ (App.add_mesh acc verts tris).vert_offset
        = acc.vert_offset + verts.length / 3
    ∧ (∀ x ∈ App.remapTris acc.vert_offset tris,
        acc.vert_offset ≤ x ∧ x < acc.vert_offset + verts.length / 3)
    ∧ (∀ x ∈ (App.add_mesh acc verts tris).all_tris,
        x < (App.add_mesh acc verts tris).vert_offset) := by
  refine ⟨rfl, rfl, ?_, ?_⟩
  · intro x hx
    obtain ⟨y, hy, rfl⟩ := remapTris_mem acc.vert_offset tris x hx
    exact ⟨Nat.le_add_left _ _, by have := hmesh y hy; omega⟩
  · intro x hx
    rw [show (App.add_mesh acc verts tris).all_tris
        = acc.all_tris ++ App.remapTris acc.vert_offset tris from rfl] at hx
    rw [show (App.add_mesh acc verts tris).vert_offset
        = acc.vert_offset + verts.length / 3 from rfl]
    rcases List.mem_append.mp hx with h | h
    · have := hacc x h; omega
    · obtain ⟨y, hy, rfl⟩ := remapTris_mem acc.vert_offset tris x h
      have := hmesh y hy; omega

/-- Witness for C4 at a concrete accumulator and mesh. -/
theorem c4_witness :
    (App.add_mesh (⟨[0, 1, 2], [0, 0, 0], 1⟩ : MeshAcc ℤ) [5, 5, 5, 6, 6, 6]
        [0, 1, 0]).all_tris
      = [0, 0, 0] ++ App.remapTris 1 [0, 1, 0]
    ∧ (∀ x ∈ App.remapTris 1 [0, 1, 0], 1 ≤ x ∧ x < 1 + 2) := by
  have h := c4_index_remapping (⟨[0, 1, 2], [0, 0, 0], 1⟩ : MeshAcc ℤ)
    [5, 5, 5, 6, 6, 6] [0, 1, 0] (by decide) (by decide)
  exact ⟨h.1, h.2.2.1⟩

/-- C7: resolving a reference to a document that is not in the parsed map,
or to an object id with neither a mesh nor components, leaves the
accumulator unchanged and raises no error; a build item with such a dangling
object id can be dropped from the item list without changing the resolution
of the other items, so a conversion with other resolved geometry still
produces it. -/
theorem c7_missing_reference {α : Type} (md : List (String × ParsedDoc α))
    (fuel : Nat) (oid model_path : String) (acc : MeshAcc α)
    (hfuel : fuel ≠ 0) :
    (dictLookup model_path md = none →
        App.collect md fuel oid model_path acc = some acc)
    ∧ (∀ doc, dictLookup model_path md = some doc →
        dictLookup oid doc.meshes = none →
        dictLookup oid doc.components_map = none →
        App.collect md fuel oid model_path acc = some acc)
    ∧ (∀ doc bad pre post, dictLookup App.main_key md = some doc →
        dictLookup bad doc.meshes = none →
        dictLookup bad doc.components_map = none →
        App.collectItems md fuel (pre ++ bad :: post) acc
          = App.collectItems md fuel (pre ++ post) acc) := by
  obtain ⟨f, rfl⟩ : ∃ f, fuel = f + 1 := ⟨fuel - 1, by omega⟩
  refine ⟨fun h => by simp [App.collect, h], ?_, ?_⟩
  · intro doc h1 h2 h3
    simp [App.collect, h1, h2, h3]
  · intro doc bad pre post hdoc h2 h3
    induction pre generalizing acc with
    | nil =>
      simp only [List.nil_append, App.collectItems]
      rw [show App.collect md (f + 1) bad App.main_key acc = some acc by
        simp [App.collect, hdoc, h2, h3]]
    | cons p rest ih =>
      simp only [List.cons_append, App.collectItems]
      cases hcol : App.collect md (f + 1) p App.main_key acc with
      | none => rfl
      | some acc2 => exact ih acc2

/-- Witness for C7: a package whose root lists a dangling build item
`"99"` next to a real one. -/
theorem c7_witness :
    App.collect [(App.main_key, ⟨[("1", ([0, 0, 0], [0, 0, 0]))], [], ["1", "99"]⟩)]
        1 "99" App.main_key (⟨[], [], 0⟩ : MeshAcc ℤ)
      = some ⟨[], [], 0⟩
    ∧ App.collectItems
        [(App.main_key, ⟨[("1", ([0, 0, 0], [0, 0, 0]))], [], ["1", "99"]⟩)]
        1 (["1"] ++ "99" :: []) (⟨[], [], 0⟩ : MeshAcc ℤ)
      = App.collectItems
        [(App.main_key, ⟨[("1", ([0, 0, 0], [0, 0, 0]))], [], ["1", "99"]⟩)]
        1 (["1"] ++ []) ⟨[], [], 0⟩ := by
  have h := c7_missing_reference
    [(App.main_key, ⟨[("1", ([0, 0, 0], [0, 0, 0]))], [], ["1", "99"]⟩)]
    1 "99" App.main_key (⟨[], [], 0⟩ : MeshAcc ℤ) (by decide)
  exact ⟨h.2.1 ⟨[("1", ([0, 0, 0], [0, 0, 0]))], [], ["1", "99"]⟩
      (by decide) (by decide) (by decide),
    h.2.2 ⟨[("1", ([0, 0, 0], [0, 0, 0]))], [], ["1", "99"]⟩ "99" ["1"] []
      (by decide) (by decide) (by decide)⟩

/-! Spec-side description of the fallback flattening: the meshes of every
parsed document in order, their vertex lists concatenated and their triangle
lists shifted by the running vertex count. -/

/-- The `(verts, tris)` pairs of every mesh of every parsed document, in
document order and per-document insertion order. -/
def docMeshList {α : Type} (md : List (String × ParsedDoc α)) :
    List (List α × List Nat) :=
  (md.map (fun kv => kv.2.meshes.map Prod.snd)).flatten

/-- Concatenation of the vertex lists of a mesh list. -/
def vertsOfMeshes {α : Type} (ms : List (List α × List Nat)) : List α :=
  (ms.map Prod.fst).flatten

/-- Concatenation of the triangle lists of a mesh list, each shifted by the
vertex count accumulated in front of it. -/
def trisOfMeshes {α : Type} (off : Nat) : List (List α × List Nat) → List Nat
  | [] => []
  | m :: rest => App.remapTris off m.2 ++ trisOfMeshes (off + m.1.length / 3) rest

/-- Total vertex count of a mesh list. -/
def vcountOfMeshes {α : Type} (ms : List (List α × List Nat)) : Nat :=
  (ms.map (fun m => m.1.length / 3)).sum

theorem foldl_add_mesh_eq {α : Type} (ms : List (List α × List Nat)) :
    ∀ acc : MeshAcc α,
      ms.foldl (fun a m => App.add_mesh a m.1 m.2) acc
        = ⟨acc.all_verts ++ vertsOfMeshes ms,
           acc.all_tris ++ trisOfMeshes acc.vert_offset ms,
           acc.vert_offset + vcountOfMeshes ms⟩ := by
  induction ms with
  | nil =>
    intro acc
    cases acc
    simp [vertsOfMeshes, trisOfMeshes, vcountOfMeshes]
  | cons m rest ih =>
    intro acc
    simp only [List.foldl_cons]
    rw [ih]
    simp [App.add_mesh, vertsOfMeshes, trisOfMeshes, vcountOfMeshes,
      List.append_assoc, Nat.add_assoc]

theorem flattenAll_eq {α : Type} (md : List (String × ParsedDoc α)) :
    ∀ acc : MeshAcc α,
      App.flattenAll md acc
        = (docMeshList md).foldl (fun a m => App.add_mesh a m.1 m.2) acc := by
  induction md with
  | nil => intro acc; rfl
  | cons kv rest ih =>
    intro acc
    simp only [App.flattenAll, List.foldl_cons, docMeshList, List.map_cons,
      List.flatten_cons, List.foldl_append]
    rw [show kv.2.meshes.foldl (fun a2 ov => App.add_mesh a2 ov.2.1 ov.2.2) acc
        = (kv.2.meshes.map Prod.snd).foldl (fun a m => App.add_mesh a m.1 m.2) acc by
      rw [List.foldl_map]]
    exact ih _

/-- C3: root selection.  When the conventional root key is present with a
non-empty build-item list, the resolution is exactly the build items
resolved against the root document; when the root's build-item list is
empty, or the root key is absent, the result is the flattening of every
mesh of every parsed document. -/
theorem c3_root_selection {α : Type} (md : List (String × ParsedDoc α))
    (fuel : Nat) :
    (∀ doc, dictLookup App.main_key md = some doc → doc.build_items ≠ [] →
        App.runResolve md fuel
          = App.collectItems md fuel doc.build_items ⟨[], [], 0⟩)
    ∧ (∀ doc, dictLookup App.main_key md = some doc → doc.build_items = [] →
        App.runResolve md fuel
          = some ⟨vertsOfMeshes (docMeshList md), trisOfMeshes 0 (docMeshList md),
              vcountOfMeshes (docMeshList md)⟩)
    ∧ (dictLookup App.main_key md = none →
        App.runResolve md fuel
          = some ⟨vertsOfMeshes (docMeshList md), trisOfMeshes 0 (docMeshList md),
              vcountOfMeshes (docMeshList md)⟩) := by
  refine ⟨?_, ?_, ?_⟩
  · intro doc h hne
    have : doc.build_items.isEmpty = false := by
      cases hbi : doc.build_items with
      | nil => exact absurd hbi hne
      | cons a l => rfl
    simp [App.runResolve, h, this]
  · intro doc h he
    have : doc.build_items.isEmpty = true := by simp [he]
    simp only [App.runResolve, h, this, if_pos]
    rw [flattenAll_eq, foldl_add_mesh_eq]
    simp
  · intro h
    simp only [App.runResolve, h]
    rw [flattenAll_eq, foldl_add_mesh_eq]
    simp

/-- Witness for C3: a root document with an empty build manifest together
with a second document; the fallback output contains both meshes, with the
second mesh's indices shifted by the first mesh's vertex count. -/
theorem c3_witness :
    App.runResolve
      [(App.main_key, ⟨[("1", ([1, 1, 1], [0, 0, 0]))], [], []⟩),
       ("/B.model", ⟨[("2", ([2, 2, 2], [0, 0, 0]))], [], []⟩)]
      1
      = some (⟨[1, 1, 1, 2, 2, 2], [0, 0, 0, 1, 1, 1], 2⟩ : MeshAcc ℤ) := by
  have h := (c3_root_selection
    ([(App.main_key, ⟨[("1", ([1, 1, 1], [0, 0, 0]))], [], []⟩),
      ("/B.model", ⟨[("2", ([2, 2, 2], [0, 0, 0]))], [], []⟩)]
      : List (String × ParsedDoc ℤ)) 1).2.1
    ⟨[("1", ([1, 1, 1], [0, 0, 0]))], [], []⟩ (by decide) rfl
  rw [h]
  decide

theorem loadModelData_no_model {α : Type} [Zero α]
    (members : List (String × XModel α))
    (h : ∀ m ∈ members, strEndsWith m.1 ".model" = false) :
    App.loadModelData members = [] := by
  have aux : ∀ (ms : List (String × XModel α)),
      (∀ m ∈ ms, strEndsWith m.1 ".model" = false) →
      ∀ md0 : List (String × ParsedDoc α),
        ms.foldl (fun md nm =>
          if strEndsWith nm.1 ".model" then
            dictInsert (App.normKey nm.1) (App.parse_model_xml nm.2) md
          else md) md0 = md0 := by
    intro ms hms
    induction ms with
    | nil => intro md0; rfl
    | cons m rest ih =>
      intro md0
      simp only [List.foldl_cons, hms m (by simp), Bool.false_eq_true,
        if_false]
      exact ih (fun m2 hm2 => hms m2 (by simp [hm2])) md0
  exact aux members h []

/-- C5 counterexample: a valid archive whose single member name does not end
in `.model` converts to the empty "no mesh" result `None`, not to a typed
error, contradicting the claim that such inputs surface a hard failure. -/
theorem c5_counterexample :
    App.convertPipeline (fun x : ℤ => x) (fun _ => [0, 0, 0, 0]) 1
        (ZipInput.zip [("thumb.png", ⟨[], []⟩)])
      = some (Except.ok none)
    ∧ ∀ e : ArchiveError,
        App.convertPipeline (fun x : ℤ => x) (fun _ => [0, 0, 0, 0]) 1
            (ZipInput.zip [("thumb.png", ⟨[], []⟩)])
          ≠ some (Except.error e) := by
  have h1 : App.convertPipeline (fun x : ℤ => x) (fun _ => [0, 0, 0, 0]) 1
      (ZipInput.zip [("thumb.png", ⟨[], []⟩)]) = some (Except.ok none) := rfl
  refine ⟨h1, fun e h => ?_⟩
  rw [h1] at h
  exact Except.noConfusion (Option.some.inj h)

/-- C5 (amended): an input that is not a valid zip archive surfaces the
typed archive error; a valid zip archive with no member ending in `.model`
yields the normal empty result `None` (zero triangles), not an error. -/
theorem c5_archive_error {α : Type} [Zero α] [Add α] [Sub α] [Mul α] [Div α]
    [LT α] [DecidableRel ((· < ·) : α → α → Prop)]
    (sqrt : α → α) (enc : α → List Nat) (fuel : Nat) :
    App.convertPipeline sqrt enc fuel ZipInput.badZip
        = some (Except.error ArchiveError.badZip)
    ∧ ∀ members : List (String × XModel α),
        (∀ m ∈ members, strEndsWith m.1 ".model" = false) →
        App.convertPipeline sqrt enc fuel (ZipInput.zip members)
          = some (Except.ok none) := by
  refine ⟨rfl, fun members h => ?_⟩
  simp only [App.convertPipeline]
  rw [loadModelData_no_model members h]
  rw [show App.runResolve ([] : List (String × ParsedDoc α)) fuel
      = some ⟨[], [], 0⟩ from rfl]
  split
  · simp_all
  · rename_i acc hacc
    obtain rfl : (⟨[], [], 0⟩ : MeshAcc α) = acc := Option.some.inj hacc
    exact congrArg (fun r => some (Except.ok r))
      (show App.encode_stl sqrt enc [] [] = none from rfl)

/-- Witness for C5 (amended) at a concrete archive with two non-model
members. -/
theorem c5_witness :
    App.convertPipeline (fun x : ℤ => x) (fun _ => [0, 0, 0, 0]) 2
        (ZipInput.zip [("a.png", ⟨[], []⟩), ("b/c.stl", ⟨[], []⟩)])
      = some (Except.ok none) :=
  (c5_archive_error (fun x : ℤ => x) (fun _ => [0, 0, 0, 0]) 2).2
    [("a.png", ⟨[], []⟩), ("b/c.stl", ⟨[], []⟩)] (by decide)

theorem parseVerts_ne_nil {α : Type} [Zero α] {vl : List (XVertex α)}
    (h : vl ≠ []) : App.parseVerts vl ≠ [] := by
  cases vl with
  | nil => exact absurd rfl h
  | cons v rest => simp [App.parseVerts]

theorem parseTris_ne_nil {tl : List XTriangle} (h : tl ≠ []) :
    App.parseTris tl ≠ [] := by
  cases tl with
  | nil => exact absurd rfl h
  | cons t rest => simp [App.parseTris]

theorem lookup_meshStep_self {α : Type} [Zero α]
    (m : List (String × (List α × List Nat))) (obj : XObject α)
    (mesh : XMesh α) (vl : List (XVertex α)) (tl : List XTriangle)
    (hmesh : obj.mesh = some mesh) (hvl : mesh.vertices = some vl)
    (htl : mesh.triangles = some tl) (hvne : vl ≠ []) (htne : tl ≠ []) :
    dictLookup obj.id (App.meshStep m obj)
      = some (App.parseVerts vl, App.parseTris tl) := by
  have h1 : (App.parseVerts vl).isEmpty = false :=
    List.isEmpty_eq_false.mpr (parseVerts_ne_nil hvne)
  have h2 : (App.parseTris tl).isEmpty = false :=
    List.isEmpty_eq_false.mpr (parseTris_ne_nil htne)
  simp only [App.meshStep, hmesh, hvl, htl, h1, h2, Bool.or_self,
    Bool.false_eq_true, if_false]
  exact dictLookup_insert_self _ _ m

theorem lookup_meshStep_ne {α : Type} [Zero α]
    (m : List (String × (List α × List Nat))) (obj : XObject α) (k : String)
    (hne : obj.id ≠ k) :
    dictLookup k (App.meshStep m obj) = dictLookup k m := by
  obtain ⟨oid, omesh, ocomp⟩ := obj
  cases omesh with
  | none => rfl
  | some mesh =>
    obtain ⟨mv, mt⟩ := mesh
    cases mv with
    | none => rfl
    | some vl =>
      cases mt with
      | none => rfl
      | some tl =>
        show dictLookup k
            (if ((App.parseVerts vl).isEmpty || (App.parseTris tl).isEmpty) = true
             then m else dictInsert oid (App.parseVerts vl, App.parseTris tl) m)
          = dictLookup k m
        by_cases h : ((App.parseVerts vl).isEmpty || (App.parseTris tl).isEmpty) = true
        · rw [if_pos h]
        · rw [if_neg h]
          exact dictLookup_insert_ne _ (fun hk => hne hk.symm) m

theorem lookup_foldl_meshStep_skip {α : Type} [Zero α] (k : String) :
    ∀ (objs : List (XObject α)) (m : List (String × (List α × List Nat))),
      (∀ o ∈ objs, o.id ≠ k) →
      dictLookup k (objs.foldl App.meshStep m) = dictLookup k m
  | [], m, _ => rfl
  | o :: rest, m, h => by
    simp only [List.foldl_cons]
    rw [lookup_foldl_meshStep_skip k rest (App.meshStep m o)
      (fun o2 h2 => h o2 (by simp [h2]))]
    exact lookup_meshStep_ne m o k (h o (by simp))

/-- C8 counterexample: an object whose mesh has a `<vertices>` element with
no children and a non-empty `<triangles>` element is not registered in the
mesh map (the source's `if verts and tris` guard skips it), contradicting
the claim that every object with both elements is registered under its id. -/
theorem c8_counterexample :
    dictLookup "1"
        (App.parse_model_xml
          (⟨[⟨"1", some ⟨some [], some [⟨some 0, some 0, some 0⟩]⟩, none⟩], []⟩
            : XModel ℤ)).meshes
      = none
    ∧ (App.parse_model_xml
        (⟨[⟨"1", some ⟨some [], some [⟨some 0, some 0, some 0⟩]⟩, none⟩], []⟩
          : XModel ℤ)).meshes = [] := by
  constructor <;> rfl

/-- C8 (amended): an object element with a mesh child holding both a
vertices element and a triangles element, each with at least one child, and
whose id no other object element shares, is registered in the document's
mesh map under its id with the flat vertex triples (missing `x`, `y`, `z`
defaulting to `0`) and flat index triples (missing `v1`, `v2`, `v3`
defaulting to `0`). -/
theorem c8_parse_registers {α : Type} [Zero α] (xm : XModel α)
    (obj : XObject α) (mesh : XMesh α) (vl : List (XVertex α))
    (tl : List XTriangle)
    (hobj : obj ∈ xm.objects) (hmesh : obj.mesh = some mesh)
    (hvl : mesh.vertices = some vl) (htl : mesh.triangles = some tl)
    (hvne : vl ≠ []) (htne : tl ≠ [])
    (huniq : ∀ o ∈ xm.objects, o.id = obj.id → o = obj) :
    dictLookup obj.id (App.parse_model_xml xm).meshes
      = some (App.parseVerts vl, App.parseTris tl) := by
  show dictLookup obj.id (App.meshesOf xm.objects)
      = some (App.parseVerts vl, App.parseTris tl)
  unfold App.meshesOf
  have aux : ∀ (objs : List (XObject α))
      (m : List (String × (List α × List Nat))), obj ∈ objs →
      (∀ o ∈ objs, o.id = obj.id → o = obj) →
      dictLookup obj.id (objs.foldl App.meshStep m)
        = some (App.parseVerts vl, App.parseTris tl) := by
    intro objs
    induction objs with
    | nil => intro m hmem _; exact absurd hmem (by simp)
    | cons o rest ih =>
      intro m hmem huq
      simp only [List.foldl_cons]
      by_cases hr : obj ∈ rest
      · exact ih (App.meshStep m o) hr (fun o2 h2 => huq o2 (by simp [h2]))
      · have hoo : o = obj := by
          rcases List.mem_cons.mp hmem with h | h
          · exact h.symm
          · exact absurd h hr
        subst hoo
        have hrest : ∀ o2 ∈ rest, o2.id ≠ o.id := by
          intro o2 h2 heq
          exact hr ((huq o2 (by simp [h2]) heq) ▸ h2)
        rw [lookup_foldl_meshStep_skip o.id rest (App.meshStep m o) hrest]
        exact lookup_meshStep_self m o mesh vl tl hmesh hvl htl hvne htne
  exact aux xm.objects [] hobj huniq

/-- Witness for C8 (amended): a two-object document where the second object
carries the mesh. -/
theorem c8_witness :
    dictLookup "2"
        (App.parse_model_xml
          (⟨[⟨"9", none, none⟩,
             ⟨"2", some ⟨some [⟨some 1, none, some 3⟩],
               some [⟨some 0, some 0, none⟩]⟩, none⟩], ["2"]⟩ : XModel ℤ)).meshes
      = some (App.parseVerts [⟨some 1, none, some 3⟩],
          App.parseTris [⟨some 0, some 0, none⟩]) :=
  c8_parse_registers
    (⟨[⟨"9", none, none⟩,
       ⟨"2", some ⟨some [⟨some 1, none, some 3⟩], some [⟨some 0, some 0, none⟩]⟩,
         none⟩], ["2"]⟩ : XModel ℤ)
    ⟨"2", some ⟨some [⟨some 1, none, some 3⟩], some [⟨some 0, some 0, none⟩]⟩, none⟩
    ⟨some [⟨some 1, none, some 3⟩], some [⟨some 0, some 0, none⟩]⟩
    [⟨some 1, none, some 3⟩] [⟨some 0, some 0, none⟩]
    (by simp) rfl rfl rfl (by simp) (by simp)
    (by intro o ho hid
        rcases List.mem_cons.mp ho with h | h
        · subst h; exact absurd hid (by decide)
        · simpa using h)

/-- One component-reference edge of a parsed document map: from node `u`
(document key, object id) to node `v` when `u`'s object has a component
list with a reference that resolves to `v`. -/
def compEdge {α : Type} (md : List (String × ParsedDoc α))
    (u v : String × String) : Prop :=
  ∃ doc comps, dictLookup u.1 md = some doc
    ∧ dictLookup u.2 doc.components_map = some comps
    ∧ ∃ c ∈ comps, v.2 = c.1 ∧ v.1 = App.resolveRef c.2 u.1

/-- The documents of the cyclic example: objects `A` and `B` in the root
document referencing each other through same-document components. -/
def cyclicDocs {α : Type} : List (String × ParsedDoc α) :=
  [(App.main_key, ⟨[], [("A", [("B", "")]), ("B", [("A", "")])], []⟩)]

theorem collectComps_mono_aux {α : Type}
    (f g : String → String → MeshAcc α → Option (MeshAcc α))
    (hfg : ∀ o p a r, f o p a = some r → g o p a = some r) :
    ∀ (l : List (String × String)) (mp : String) (acc r : MeshAcc α),
      App.collectComps f mp l acc = some r →
      App.collectComps g mp l acc = some r
  | [], mp, acc, r, h => h
  | (co, cp) :: rest, mp, acc, r, h => by
    simp only [App.collectComps] at h ⊢
    cases hf : f co (App.resolveRef cp mp) acc with
    | none => rw [hf] at h; exact absurd h (by simp)
    | some acc2 =>
      rw [hf] at h
      rw [hfg _ _ _ _ hf]
      exact collectComps_mono_aux f g hfg rest mp acc2 r h

theorem collect_mono {α : Type} (md : List (String × ParsedDoc α)) :
    ∀ (fuel fuel2 : Nat), fuel ≤ fuel2 →
      ∀ (oid model_path : String) (acc r : MeshAcc α),
        App.collect md fuel oid model_path acc = some r →
        App.collect md fuel2 oid model_path acc = some r := by
  intro fuel
  induction fuel with
  | zero =>
    intro fuel2 _ oid mp acc r h
    exact absurd h (by simp [App.collect])
  | succ f ih =>
    intro fuel2 hle oid mp acc r h
    obtain ⟨f2, rfl⟩ : ∃ f2, fuel2 = f2 + 1 := ⟨fuel2 - 1, by omega⟩
    have hf : f ≤ f2 := by omega
    cases hd : dictLookup mp md with
    | none =>
      simp only [App.collect, hd] at h ⊢
      exact h
    | some doc =>
      cases hc : dictLookup oid doc.components_map with
      | none =>
        simp only [App.collect, hd, hc] at h ⊢
        exact h
      | some comps =>
        simp only [App.collect, hd, hc] at h ⊢
        exact collectComps_mono_aux _ _
          (fun o p a r2 hr => ih f2 hf o p a r2 hr) comps mp _ r h

/-- C9: when the component-reference graph of the parsed document map is
acyclic — its edge relation is well-founded, which for this finite graph is
the absence of directed cycles — the recursive resolution returns within
some fuel bound for every starting reference; and on the concrete cyclic
map where object `A` references `B` and `B` references `A`, the recursion
exhausts every fuel bound, i.e. the source's unguarded recursion does not
terminate. -/
theorem c9_termination {α : Type} :
    (∀ md : List (String × ParsedDoc α),
        WellFounded (fun v u : String × String => compEdge md u v) →
        ∀ (oid model_path : String) (acc : MeshAcc α),
          ∃ fuel r, App.collect md fuel oid model_path acc = some r)
    ∧ (∀ (fuel : Nat) (acc : MeshAcc α),
        App.collect (cyclicDocs (α := α)) fuel "A" App.main_key acc = none) := by
  constructor
  · intro md hwf oid model_path acc
    have main : ∀ u : String × String, ∀ acc2 : MeshAcc α,
        ∃ fuel r, App.collect md fuel u.2 u.1 acc2 = some r := by
      intro u
      refine @WellFounded.induction (String × String) _ hwf
        (fun u => ∀ acc2 : MeshAcc α,
          ∃ fuel r, App.collect md fuel u.2 u.1 acc2 = some r) u ?_
      intro u IH acc2
      cases hd : dictLookup u.1 md with
      | none => exact ⟨1, acc2, by simp [App.collect, hd]⟩
      | some doc =>
        cases hc : dictLookup u.2 doc.components_map with
        | none =>
          refine ⟨1, ?_, ?_⟩
          · exact match dictLookup u.2 doc.meshes with
              | some vt => App.add_mesh acc2 vt.1 vt.2
              | none => acc2
          · simp [App.collect, hd, hc]
        | some comps =>
          have aux : ∀ sub : List (String × String), (∀ c ∈ sub, c ∈ comps) →
              ∀ a : MeshAcc α, ∃ fuel r,
                App.collectComps (fun o p b => App.collect md fuel o p b)
                  u.1 sub a = some r := by
            intro sub
            induction sub with
            | nil => intro _ a; exact ⟨0, a, rfl⟩
            | cons ch rest ihs =>
              intro hsub a
              obtain ⟨co, cp⟩ := ch
              have hedge : compEdge md u (App.resolveRef cp u.1, co) :=
                ⟨doc, comps, hd, hc, (co, cp), hsub (co, cp) (by simp), rfl, rfl⟩
              obtain ⟨fuel1, r1, h1⟩ := IH (App.resolveRef cp u.1, co) hedge a
              obtain ⟨fuel2, r2, h2⟩ :=
                ihs (fun c hcm => hsub c (by simp [hcm])) r1
              refine ⟨max fuel1 fuel2, r2, ?_⟩
              simp only [App.collectComps]
              rw [collect_mono md fuel1 (max fuel1 fuel2) (le_max_left _ _)
                _ _ _ _ h1]
              exact collectComps_mono_aux _ _
                (fun o p a2 rr hr => collect_mono md fuel2 (max fuel1 fuel2)
                  (le_max_right _ _) o p a2 rr hr) rest u.1 r1 r2 h2
          cases hm : dictLookup u.2 doc.meshes with
          | none =>
            obtain ⟨fuelc, rc, hcc⟩ := aux comps (fun c h => h) acc2
            exact ⟨fuelc + 1, rc, by
              simp only [App.collect, hd, hm, hc]
              exact hcc⟩
          | some vt =>
            obtain ⟨fuelc, rc, hcc⟩ :=
              aux comps (fun c h => h) (App.add_mesh acc2 vt.1 vt.2)
            exact ⟨fuelc + 1, rc, by
              simp only [App.collect, hd, hm, hc]
              exact hcc⟩
    exact main (model_path, oid) acc
  · have key : ∀ fuel (acc : MeshAcc α) (oid : String),
        oid = "A" ∨ oid = "B" →
        App.collect (cyclicDocs (α := α)) fuel oid App.main_key acc = none := by
      intro fuel
      induction fuel with
      | zero => intro acc oid _; rfl
      | succ f ih =>
        intro acc oid h
        rcases h with rfl | rfl
        · rw [show App.collect (cyclicDocs (α := α)) (f + 1) "A" App.main_key acc
              = App.collectComps
                  (fun o p a => App.collect (cyclicDocs (α := α)) f o p a)
                  App.main_key [("B", "")] acc from rfl]
          simp only [App.collectComps]
          rw [show App.resolveRef "" App.main_key = App.main_key from rfl]
          rw [ih acc "B" (Or.inr rfl)]
        · rw [show App.collect (cyclicDocs (α := α)) (f + 1) "B" App.main_key acc
              = App.collectComps
                  (fun o p a => App.collect (cyclicDocs (α := α)) f o p a)
                  App.main_key [("A", "")] acc from rfl]
          simp only [App.collectComps]
          rw [show App.resolveRef "" App.main_key = App.main_key from rfl]
          rw [ih acc "A" (Or.inl rfl)]
    intro fuel acc
    exact key fuel acc "A" (Or.inl rfl)

/-- Witness for C9: the acyclic half applied to a one-document map with no
components at all, and the cyclic half at a concrete fuel bound. -/
theorem c9_witness :
    (∃ fuel r, App.collect
        [(App.main_key, ⟨[("1", ([0, 0, 0], [0, 0, 0]))], [], ["1"]⟩)]
        fuel "1" App.main_key (⟨[], [], 0⟩ : MeshAcc ℤ) = some r)
    ∧ App.collect (cyclicDocs (α := ℤ)) 5 "A" App.main_key ⟨[], [], 0⟩
        = none := by
  constructor
  · have hwf : WellFounded (fun v u : String × String =>
        compEdge [(App.main_key,
          (⟨[("1", ([0, 0, 0], [0, 0, 0]))], [], ["1"]⟩ : ParsedDoc ℤ))] u v) := by
      constructor
      intro u
      constructor
      intro v hedge
      obtain ⟨doc, comps, hd, hc, -⟩ := hedge
      have hdoc : doc.components_map = [] := by
        by_cases h : App.main_key = u.1
        · simp only [dictLookup, if_pos h] at hd
          obtain rfl := Option.some.inj hd
          rfl
        · simp only [dictLookup, if_neg h] at hd
          exact Option.noConfusion hd
      rw [hdoc] at hc
      exact Option.noConfusion hc
    exact (c9_termination (α := ℤ)).1
      [(App.main_key, ⟨[("1", ([0, 0, 0], [0, 0, 0]))], [], ["1"]⟩)]
      hwf "1" App.main_key ⟨[], [], 0⟩
  · exact (c9_termination (α := ℤ)).2 5 ⟨[], [], 0⟩

theorem triRecord_length {α : Type} [Zero α] [Add α] [Sub α] [Mul α] [Div α]
    [LT α] [DecidableRel ((· < ·) : α → α → Prop)]
    (sqrt : α → α) (enc : α → List Nat) (v : List α) (t : List Nat) (i : Nat)
    (henc : ∀ x, (enc x).length = 4) :
    (App.triRecord sqrt enc v t i).length = 50 := by
  simp [App.triRecord, packU16le, henc]

theorem flatten_length_const (k : Nat) :
    ∀ l : List (List Nat), (∀ r ∈ l, r.length = k) →
      l.flatten.length = k * l.length
  | [], _ => by simp
  | r :: rest, h => by
    simp only [List.flatten_cons, List.length_append, List.length_cons]
    rw [h r (by simp),
      flatten_length_const k rest (fun r2 h2 => h r2 (by simp [h2]))]
    ring

theorem flatten_chunk (k : Nat) :
    ∀ (l : List (List Nat)) (i : Nat), (∀ r ∈ l, r.length = k) →
      i < l.length → (l.flatten.drop (k * i)).take k = l.getD i []
  | [], i, _, hi => by simp at hi
  | r :: rest, 0, h, _ => by
    simp only [Nat.mul_zero, List.drop_zero, List.flatten_cons]
    exact List.take_left' (h r (by simp))
  | r :: rest, i + 1, h, hi => by
    have hr : r.length = k := h r (by simp)
    rw [List.flatten_cons, show k * (i + 1) = r.length + k * i by rw [hr]; ring,
      List.drop_append,
      show (r :: rest).getD (i + 1) [] = rest.getD i [] from rfl]
    exact flatten_chunk k rest i (fun r2 h2 => h r2 (by simp [h2]))
      (Nat.lt_of_succ_lt_succ (by simpa using hi))

theorem leNat_packU32le (n : Nat) (h : n < 2 ^ 32) :
    leNat (packU32le n) = n := by
  simp only [packU32le, leNat]
  norm_num
  omega

theorem map_range_getD {β : Type} (n i : Nat) (f : Nat → β) (d : β)
    (h : i < n) : ((List.range n).map f).getD i d = f i := by
  rw [List.getD_eq_getElem?_getD, List.getElem?_map, List.getElem?_range h]
  rfl

theorem drop_four_block {x rest : List Nat} (n : Nat) (hx : x.length = 4) :
    (x ++ rest).drop (4 + n) = rest.drop n := by
  rw [show 4 + n = x.length + n by rw [hx]]
  exact List.drop_append n

theorem record_attr_tail {b1 b2 b3 b4 b5 b6 b7 b8 b9 b10 b11 b12 tl2 : List Nat}
    (h1 : b1.length = 4) (h2 : b2.length = 4) (h3 : b3.length = 4)
    (h4 : b4.length = 4) (h5 : b5.length = 4) (h6 : b6.length = 4)
    (h7 : b7.length = 4) (h8 : b8.length = 4) (h9 : b9.length = 4)
    (h10 : b10.length = 4) (h11 : b11.length = 4) (h12 : b12.length = 4) :
    (b1 ++ b2 ++ b3 ++ b4 ++ b5 ++ b6 ++ b7 ++ b8 ++ b9 ++ b10 ++ b11 ++ b12
      ++ tl2).drop 48 = tl2 := by
  have hX : (b1 ++ b2 ++ b3 ++ b4 ++ b5 ++ b6 ++ b7 ++ b8 ++ b9 ++ b10 ++ b11
      ++ b12).length = 48 := by
    simp [h1, h2, h3, h4, h5, h6, h7, h8, h9, h10, h11, h12]
  exact List.drop_left' hX

/-- The 50-byte record layout the specification prescribes: the three normal
components, the three vertices in order A, B, C, and the two-byte attribute
field equal to `0`, each scalar through the 4-byte encoding `enc`. -/
def stlRecordBytes {α : Type} [Zero α] [Add α] [Sub α] [Mul α] [Div α] [LT α]
    [DecidableRel ((· < ·) : α → α → Prop)]
    (sqrt : α → α) (enc : α → List Nat) (v : List α) (t : List Nat)
    (i : Nat) : List Nat :=
  let n := App.stlNormal sqrt (App.triVertex v t (3 * i))
    (App.triVertex v t (3 * i + 1)) (App.triVertex v t (3 * i + 2))
  let a := App.triVertex v t (3 * i)
  let b := App.triVertex v t (3 * i + 1)
  let c := App.triVertex v t (3 * i + 2)
  enc n.1 ++ enc n.2.1 ++ enc n.2.2 ++ enc a.1 ++ enc a.2.1 ++ enc a.2.2
    ++ enc b.1 ++ enc b.2.1 ++ enc b.2.2 ++ enc c.1 ++ enc c.2.1 ++ enc c.2.2
    ++ [0, 0]

/-- C1: every STL buffer the encoder produces is the 80-byte zero header,
the little-endian 32-bit triangle count at bytes 80–83, and one 50-byte
record per triangle at offset `84 + 50*i`, each record being the normal,
vertices A, B, C and the attribute field `0` in that order; the total
length equals `84 + 50 * N` for the `N` stored at bytes 80–83. -/
theorem c1_stl_layout {α : Type} [Zero α] [Add α] [Sub α] [Mul α] [Div α]
    [LT α] [DecidableRel ((· < ·) : α → α → Prop)]
    (sqrt : α → α) (enc : α → List Nat) (v : List α) (t : List Nat)
    (buf : List Nat)
    (henc : ∀ x, (enc x).length = 4)
    (hsize : t.length / 3 < 2 ^ 32)
    (hbuf : App.encode_stl sqrt enc v t = some buf) :
    buf.length = 84 + 50 * (t.length / 3)
    ∧ buf.take 80 = List.replicate 80 0
    ∧ leNat ((buf.drop 80).take 4) = t.length / 3
    ∧ buf.length = 84 + 50 * leNat ((buf.drop 80).take 4)
    ∧ ∀ i, i < t.length / 3 →
        (buf.drop (84 + 50 * i)).take 50 = App.triRecord sqrt enc v t i
        ∧ App.triRecord sqrt enc v t i = stlRecordBytes sqrt enc v t i
        ∧ (stlRecordBytes sqrt enc v t i).drop 48 = [0, 0]
        ∧ (App.triRecord sqrt enc v t i).length = 50 := by
  have hNne : t.length / 3 ≠ 0 := by
    intro h0
    simp [App.encode_stl, h0] at hbuf
  have hbuf' : buf = List.replicate 80 0 ++ packU32le (t.length / 3)
      ++ ((List.range (t.length / 3)).map (App.triRecord sqrt enc v t)).flatten := by
    simp only [App.encode_stl, if_neg hNne] at hbuf
    exact (Option.some.inj hbuf).symm
  have hrecs : ∀ r ∈ (List.range (t.length / 3)).map
      (App.triRecord sqrt enc v t), r.length = 50 := by
    intro r hr
    obtain ⟨i, hi, rfl⟩ := List.mem_map.mp hr
    exact triRecord_length sqrt enc v t i henc
  have hflat : ((List.range (t.length / 3)).map
      (App.triRecord sqrt enc v t)).flatten.length = 50 * (t.length / 3) := by
    rw [flatten_length_const 50 _ hrecs]
    simp
  have hlen : buf.length = 84 + 50 * (t.length / 3) := by
    rw [hbuf']
    simp only [List.length_append, List.length_replicate, packU32le,
      List.length_cons, List.length_nil, hflat]
  have hdrop80 : buf.drop 80 = packU32le (t.length / 3)
      ++ ((List.range (t.length / 3)).map (App.triRecord sqrt enc v t)).flatten := by
    rw [hbuf', List.append_assoc]
    exact List.drop_left' (by simp)
  have htake4 : (buf.drop 80).take 4 = packU32le (t.length / 3) := by
    rw [hdrop80]
    exact List.take_left' (by simp [packU32le])
  have hle : leNat ((buf.drop 80).take 4) = t.length / 3 := by
    rw [htake4]
    exact leNat_packU32le _ hsize
  refine ⟨hlen, ?_, hle, by rw [hle]; exact hlen, ?_⟩
  · rw [hbuf', List.append_assoc]
    exact List.take_left' (by simp)
  · intro i hi
    refine ⟨?_, rfl, ?_, triRecord_length sqrt enc v t i henc⟩
    · rw [hbuf']
      rw [show 84 + 50 * i
          = (List.replicate 80 (0 : Nat) ++ packU32le (t.length / 3)).length
            + 50 * i by simp [packU32le]]
      rw [List.drop_append]
      rw [flatten_chunk 50 _ i hrecs (by simpa using hi)]
      rw [map_range_getD _ _ _ _ hi]
    · simp only [stlRecordBytes]
      exact record_attr_tail (henc _) (henc _) (henc _) (henc _) (henc _)
        (henc _) (henc _) (henc _) (henc _) (henc _) (henc _) (henc _)

/-- The buffer of the C1 witness conversion. -/
def c1buf : List Nat :=
  (App.encode_stl (fun _ : ℤ => 0) (fun _ => [1, 2, 3, 4]) [0, 0, 0]
    [0, 0, 0]).getD []

/-- Witness for C1 at a one-triangle conversion with a constant 4-byte
encoding. -/
theorem c1_witness :
    c1buf.length = 84 + 50 * 1
    ∧ leNat ((c1buf.drop 80).take 4) = 1
    ∧ (c1buf.drop (84 + 50 * 0)).take 50
        = App.triRecord (fun _ : ℤ => 0) (fun _ => [1, 2, 3, 4]) [0, 0, 0]
            [0, 0, 0] 0 := by
  have h := c1_stl_layout (fun _ : ℤ => 0) (fun _ => [1, 2, 3, 4]) [0, 0, 0]
    [0, 0, 0] c1buf (fun x => rfl) (by norm_num) rfl
  exact ⟨h.1, h.2.2.1, (h.2.2.2.2 0 (by norm_num)).1⟩

theorem sum_three_squares_eq_zero {x y z : ℝ}
    (h : x * x + y * y + z * z = 0) : x = 0 ∧ y = 0 ∧ z = 0 := by
  have hx : x * x = 0 := by
    have := mul_self_nonneg x
    have := mul_self_nonneg y
    have := mul_self_nonneg z
    linarith
  have hy : y * y = 0 := by
    have := mul_self_nonneg x
    have := mul_self_nonneg y
    have := mul_self_nonneg z
    linarith
  have hz : z * z = 0 := by
    have := mul_self_nonneg x
    have := mul_self_nonneg y
    have := mul_self_nonneg z
    linarith
  exact ⟨mul_self_eq_zero.mp hx, mul_self_eq_zero.mp hy, mul_self_eq_zero.mp hz⟩

/-- C2: the encoded normal of a triangle (A, B, C) equals the cross product
`(B−A) × (C−A)` divided by its magnitude whenever that magnitude is
non-zero, and is exactly the zero vector when the magnitude is zero (e.g.
A = B = C); the guard means no division by zero is ever performed, which is
the real-arithmetic content of "never NaN or Inf". -/
theorem c2_normal (a b c : ℝ × ℝ × ℝ) (nx ny nz : ℝ)
    (hnx : nx = (b.2.1 - a.2.1) * (c.2.2 - a.2.2)
        - (b.2.2 - a.2.2) * (c.2.1 - a.2.1))
    (hny : ny = (b.2.2 - a.2.2) * (c.1 - a.1)
        - (b.1 - a.1) * (c.2.2 - a.2.2))
    (hnz : nz = (b.1 - a.1) * (c.2.1 - a.2.1)
        - (b.2.1 - a.2.1) * (c.1 - a.1)) :
    (Real.sqrt (nx * nx + ny * ny + nz * nz) ≠ 0 →
        App.stlNormal Real.sqrt a b c
          = (nx / Real.sqrt (nx * nx + ny * ny + nz * nz),
             ny / Real.sqrt (nx * nx + ny * ny + nz * nz),
             nz / Real.sqrt (nx * nx + ny * ny + nz * nz)))
    ∧ (Real.sqrt (nx * nx + ny * ny + nz * nz) = 0 →
        App.stlNormal Real.sqrt a b c = (0, 0, 0)) := by
  constructor
  · intro hne
    have hpos : 0 < Real.sqrt (nx * nx + ny * ny + nz * nz) :=
      lt_of_le_of_ne (Real.sqrt_nonneg _) (Ne.symm hne)
    subst hnx hny hnz
    simp only [App.stlNormal]
    rw [if_pos hpos]
  · intro heq
    have hsum : (0:ℝ) ≤ nx * nx + ny * ny + nz * nz :=
      add_nonneg (add_nonneg (mul_self_nonneg _) (mul_self_nonneg _))
        (mul_self_nonneg _)
    obtain ⟨hx, hy, hz⟩ :=
      sum_three_squares_eq_zero ((Real.sqrt_eq_zero hsum).mp heq)
    have hnotlt : ¬ (0:ℝ) < Real.sqrt (nx * nx + ny * ny + nz * nz) := by
      rw [heq]
      exact lt_irrefl 0
    subst hnx hny hnz
    simp only [App.stlNormal]
    rw [if_neg hnotlt, hx, hy, hz]

/-- Witness for C2: the unit right triangle in the xy-plane encodes the
normal (0, 0, 1), and a fully degenerate triangle A = B = C encodes the
zero normal. -/
theorem c2_witness :
    App.stlNormal Real.sqrt ((0 : ℝ), (0 : ℝ), (0 : ℝ)) (1, 0, 0) (0, 1, 0)
        = (0, 0, 1)
    ∧ App.stlNormal Real.sqrt ((1 : ℝ), (2 : ℝ), (3 : ℝ)) (1, 2, 3) (1, 2, 3)
        = (0, 0, 0) := by
  constructor
  · have h := (c2_normal ((0 : ℝ), (0 : ℝ), (0 : ℝ)) (1, 0, 0) (0, 1, 0) 0 0 1
      (by norm_num) (by norm_num) (by norm_num)).1
    have hs : Real.sqrt ((0:ℝ) * 0 + 0 * 0 + 1 * 1) = 1 := by
      norm_num
    rw [h (by rw [hs]; norm_num)]
    rw [hs]
    norm_num
  · exact (c2_normal ((1 : ℝ), (2 : ℝ), (3 : ℝ)) (1, 2, 3) (1, 2, 3) 0 0 0
      (by norm_num) (by norm_num) (by norm_num)).2 (by norm_num)

/-- C6: once a conversion of a path at a given modification time has
returned encoded bytes, a second call with the same path and mtime returns
those bytes with the cache unchanged, for any archive content and any fuel
— the source is neither re-read nor re-parsed; and a call with a changed
(fresh) modification time on the same path misses the cache and re-runs the
whole conversion pipeline on the archive, even if its bytes are unchanged. -/
theorem c6_cache {α τ : Type} [Zero α] [Add α] [Sub α] [Mul α] [Div α] [LT α]
    [DecidableRel ((· < ·) : α → α → Prop)] [DecidableEq τ]
    (sqrt : α → α) (enc : α → List Nat) (fuel : Nat) (filepath : String)
    (mtime mtime2 : τ) (a1 : ZipInput α)
    (cache0 cache1 : List ((String × τ) × List Nat)) (stl : List Nat)
    (h1 : App.convert_cached sqrt enc fuel filepath mtime a1 cache0
        = some (Except.ok (some stl), cache1)) :
    (∀ (a2 : ZipInput α) (fuel2 : Nat),
        App.convert_cached sqrt enc fuel2 filepath mtime a2 cache1
          = some (Except.ok (some stl), cache1))
    ∧ (mtime2 ≠ mtime → dictLookup (filepath, mtime2) cache0 = none →
        ∀ a2 : ZipInput α,
          (App.convert_cached sqrt enc fuel filepath mtime2 a2 cache1).map
              Prod.fst
            = App.convertPipeline sqrt enc fuel a2) := by
  have key : dictLookup (filepath, mtime) cache1 = some stl
      ∧ (cache1 = cache0
          ∨ cache1 = dictInsert (filepath, mtime) stl cache0) := by
    simp only [App.convert_cached] at h1
    cases hl : dictLookup (filepath, mtime) cache0 with
    | some b =>
      rw [hl] at h1
      simp only [Option.some.injEq, Prod.mk.injEq, Except.ok.injEq] at h1
      obtain ⟨rfl, rfl⟩ := h1
      exact ⟨hl, Or.inl rfl⟩
    | none =>
      rw [hl] at h1
      cases hp : App.convertPipeline sqrt enc fuel a1 with
      | none => rw [hp] at h1; simp at h1
      | some r =>
        rw [hp] at h1
        cases r with
        | error e => simp at h1
        | ok o =>
          cases o with
          | none => simp at h1
          | some b =>
            simp only [Option.some.injEq, Prod.mk.injEq, Except.ok.injEq] at h1
            obtain ⟨rfl, hc⟩ := h1
            exact ⟨hc ▸ dictLookup_insert_self _ _ _, Or.inr hc.symm⟩
  obtain ⟨hkey, hcc⟩ := key
  constructor
  · intro a2 fuel2
    simp only [App.convert_cached, hkey]
  · intro hne hfresh a2
    have hkey2 : dictLookup (filepath, mtime2) cache1 = none := by
      rcases hcc with rfl | rfl
      · exact hfresh
      · rw [dictLookup_insert_ne _ (fun hp => hne (congrArg Prod.snd hp))]
        exact hfresh
    simp only [App.convert_cached, hkey2]
    cases hp2 : App.convertPipeline sqrt enc fuel a2 with
    | none => rfl
    | some r =>
      cases r with
      | error e => rfl
      | ok o =>
        cases o with
        | none => rfl
        | some b => rfl

/-- The STL bytes of the C6 witness conversion: 80-byte header, count 1,
and one all-zero record. -/
def c6bytes : List Nat :=
  List.replicate 80 0 ++ [1, 0, 0, 0] ++ List.replicate 50 0

/-- Witness for C6: after converting a one-triangle package at mtime 0, a
cache-hit call at mtime 0 ignores the archive entirely, and a call at the
fresh mtime 1 re-runs the pipeline. -/
theorem c6_witness :
    App.convert_cached (fun _ : ℤ => 0) (fun _ => [0, 0, 0, 0]) 0 "p"
        (0 : Nat) ZipInput.badZip [(("p", 0), c6bytes)]
      = some (Except.ok (some c6bytes), [(("p", 0), c6bytes)])
    ∧ (App.convert_cached (fun _ : ℤ => 0) (fun _ => [0, 0, 0, 0]) 1 "p"
        (1 : Nat) ZipInput.badZip [(("p", 0), c6bytes)]).map Prod.fst
      = App.convertPipeline (fun _ : ℤ => 0) (fun _ => [0, 0, 0, 0]) 1
          ZipInput.badZip := by
  have h := c6_cache (fun _ : ℤ => 0) (fun _ => [0, 0, 0, 0]) 1 "p"
    (0 : Nat) 1
    (ZipInput.zip [("3D/3dmodel.model",
      ⟨[⟨"1", some ⟨some [⟨some 0, some 0, some 0⟩],
        some [⟨some 0, some 0, some 0⟩]⟩, none⟩], ["1"]⟩)])
    [] [(("p", 0), c6bytes)] c6bytes rfl
  exact ⟨h.1 ZipInput.badZip 0, h.2 (by decide) rfl ZipInput.badZip⟩

/-! Equality of the two converter implementations, function by function. -/

theorem eq_parseVerts {α : Type} [Zero α] :
    ∀ vl : List (XVertex α), App.parseVerts vl = Build.parseVerts vl
  | [] => rfl
  | v :: rest => by
    simp only [App.parseVerts, Build.parseVerts]
    rw [eq_parseVerts rest]

theorem eq_parseTris : ∀ tl : List XTriangle,
    App.parseTris tl = Build.parseTris tl
  | [] => rfl
  | t :: rest => by
    simp only [App.parseTris, Build.parseTris]
    rw [eq_parseTris rest]

theorem eq_meshStep {α : Type} [Zero α]
    (m : List (String × (List α × List Nat))) (obj : XObject α) :
    App.meshStep m obj = Build.meshStep m obj := by
  obtain ⟨oid, omesh, ocomp⟩ := obj
  cases omesh with
  | none => rfl
  | some mesh =>
    obtain ⟨mv, mt⟩ := mesh
    cases mv with
    | none => rfl
    | some vl =>
      cases mt with
      | none => rfl
      | some tl =>
        show (if ((App.parseVerts vl).isEmpty || (App.parseTris tl).isEmpty) = true
            then m else dictInsert oid (App.parseVerts vl, App.parseTris tl) m)
          = (if ((Build.parseVerts vl).isEmpty || (Build.parseTris tl).isEmpty) = true
            then m else dictInsert oid (Build.parseVerts vl, Build.parseTris tl) m)
        rw [eq_parseVerts vl, eq_parseTris tl]

theorem eq_meshesOf {α : Type} [Zero α] (objs : List (XObject α)) :
    App.meshesOf objs = Build.meshesOf objs :=
  List.foldl_ext _ _ [] (fun m obj _ => eq_meshStep m obj)

theorem eq_componentsOf {α : Type} (objs : List (XObject α)) :
    App.componentsOf objs = Build.componentsOf objs := rfl

theorem eq_parse_model_xml {α : Type} [Zero α] (xm : XModel α) :
    App.parse_model_xml xm = Build.parse_model_xml xm := by
  simp only [App.parse_model_xml, Build.parse_model_xml, eq_meshesOf,
    eq_componentsOf]

theorem eq_loadModelData {α : Type} [Zero α]
    (members : List (String × XModel α)) :
    App.loadModelData members = Build.loadModelData members := by
  refine List.foldl_ext _ _ [] (fun md nm _ => ?_)
  by_cases h : strEndsWith nm.1 ".model"
  · simp only [h, if_true]
    rw [eq_parse_model_xml, show App.normKey nm.1 = Build.normKey nm.1 from rfl]
  · simp only [h, Bool.false_eq_true, if_false]

theorem eq_remapTris (off : Nat) :
    ∀ t : List Nat, App.remapTris off t = Build.remapTris off t
  | [] => rfl
  | [a] => rfl
  | [a, b] => rfl
  | a :: b :: c :: rest => by
    show (a + off) :: (b + off) :: (c + off) :: App.remapTris off rest
      = (a + off) :: (b + off) :: (c + off) :: Build.remapTris off rest
    rw [eq_remapTris off rest]

theorem eq_add_mesh {α : Type} (acc : MeshAcc α) (verts : List α)
    (tris : List Nat) :
    App.add_mesh acc verts tris = Build.add_mesh acc verts tris := by
  simp only [App.add_mesh, Build.add_mesh, eq_remapTris]

theorem collectComps_congr {α : Type}
    (f g : String → String → MeshAcc α → Option (MeshAcc α))
    (hfg : ∀ o p a, f o p a = g o p a) :
    ∀ (l : List (String × String)) (mp : String) (acc : MeshAcc α),
      App.collectComps f mp l acc = App.collectComps g mp l acc
  | [], _, _ => rfl
  | (co, cp) :: rest, mp, acc => by
    simp only [App.collectComps]
    rw [hfg co (App.resolveRef cp mp) acc]
    cases g co (App.resolveRef cp mp) acc with
    | none => rfl
    | some acc2 => exact collectComps_congr f g hfg rest mp acc2

theorem eq_collectComps {α : Type}
    (f : String → String → MeshAcc α → Option (MeshAcc α)) :
    ∀ (l : List (String × String)) (mp : String) (acc : MeshAcc α),
      App.collectComps f mp l acc = Build.collectComps f mp l acc
  | [], _, _ => rfl
  | (co, cp) :: rest, mp, acc => by
    simp only [App.collectComps, Build.collectComps]
    rw [show Build.resolveRef cp mp = App.resolveRef cp mp from rfl]
    cases f co (App.resolveRef cp mp) acc with
    | none => rfl
    | some acc2 => exact eq_collectComps f rest mp acc2

theorem eq_collect {α : Type} (md : List (String × ParsedDoc α)) :
    ∀ (fuel : Nat) (oid mp : String) (acc : MeshAcc α),
      App.collect md fuel oid mp acc = Build.collect md fuel oid mp acc := by
  intro fuel
  induction fuel with
  | zero => intro oid mp acc; rfl
  | succ f ih =>
    intro oid mp acc
    cases hd : dictLookup mp md with
    | none => simp only [App.collect, Build.collect, hd]
    | some doc =>
      cases hm : dictLookup oid doc.meshes with
      | none =>
        cases hc : dictLookup oid doc.components_map with
        | none => simp only [App.collect, Build.collect, hd, hm, hc]
        | some comps =>
          simp only [App.collect, Build.collect, hd, hm, hc]
          exact (collectComps_congr _ _ (fun o p a => ih o p a) comps mp
            acc).trans (eq_collectComps _ comps mp acc)
      | some vt =>
        cases hc : dictLookup oid doc.components_map with
        | none =>
          simp only [App.collect, Build.collect, hd, hm, hc]
          rw [eq_add_mesh]
        | some comps =>
          simp only [App.collect, Build.collect, hd, hm, hc]
          rw [eq_add_mesh]
          exact (collectComps_congr _ _ (fun o p a => ih o p a) comps mp
            (Build.add_mesh acc vt.1 vt.2)).trans
            (eq_collectComps _ comps mp (Build.add_mesh acc vt.1 vt.2))

theorem eq_collectItems {α : Type} (md : List (String × ParsedDoc α))
    (fuel : Nat) :
    ∀ (items : List String) (acc : MeshAcc α),
      App.collectItems md fuel items acc = Build.collectItems md fuel items acc
  | [], _ => rfl
  | oid :: rest, acc => by
    simp only [App.collectItems, Build.collectItems]
    rw [show Build.main_key = App.main_key from rfl, eq_collect md fuel oid]
    cases Build.collect md fuel oid App.main_key acc with
    | none => rfl
    | some acc2 => exact eq_collectItems md fuel rest acc2

theorem eq_flattenAll {α : Type} (md : List (String × ParsedDoc α))
    (acc : MeshAcc α) :
    App.flattenAll md acc = Build.flattenAll md acc := by
  refine List.foldl_ext _ _ acc (fun a kv _ => ?_)
  exact List.foldl_ext _ _ a (fun a2 ov _ => eq_add_mesh a2 ov.2.1 ov.2.2)

theorem eq_runResolve {α : Type} (md : List (String × ParsedDoc α))
    (fuel : Nat) : App.runResolve md fuel = Build.runResolve md fuel := by
  simp only [App.runResolve, Build.runResolve,
    show Build.main_key = App.main_key from rfl]
  cases dictLookup App.main_key md with
  | none => rw [eq_flattenAll]
  | some doc =>
    by_cases h : doc.build_items.isEmpty
    · simp only [h, if_true]
      rw [eq_flattenAll]
    · simp only [h, Bool.false_eq_true, if_false]
      rw [eq_collectItems]

theorem eq_encode_stl {α : Type} [Zero α] [Add α] [Sub α] [Mul α] [Div α]
    [LT α] [DecidableRel ((· < ·) : α → α → Prop)]
    (sqrt : α → α) (enc : α → List Nat) (v : List α) (t : List Nat) :
    App.encode_stl sqrt enc v t = Build.encode_stl sqrt enc v t := rfl

/-- C10: the two converters are equivalent — for every archive input (and
every fuel bound, scalar arithmetic, square root and float encoding), the
uncached `convert_3mf_to_stl` of src/build.py returns exactly the result of
the src/app.py conversion pipeline with its caching layer removed. -/
theorem c10_equiv {α : Type} [Zero α] [Add α] [Sub α] [Mul α] [Div α] [LT α]
    [DecidableRel ((· < ·) : α → α → Prop)]
    (sqrt : α → α) (enc : α → List Nat) (fuel : Nat) (input : ZipInput α) :
    App.convertPipeline sqrt enc fuel input
      = Build.convert_3mf_to_stl sqrt enc fuel input := by
  cases input with
  | badZip => rfl
  | zip members =>
    simp only [App.convertPipeline, Build.convert_3mf_to_stl]
    rw [show Build.loadModelData members = App.loadModelData members from
      (eq_loadModelData members).symm]
    rw [show Build.runResolve (App.loadModelData members) fuel
      = App.runResolve (App.loadModelData members) fuel from
      (eq_runResolve _ fuel).symm]
    cases App.runResolve (App.loadModelData members) fuel with
    | none => rfl
    | some acc => rfl
